import Mathlib

/-!
# Verification of the recommendation engine (`go_ddd_example`)

Shallow embedding of the repository's recommendation core:

* `domain/valueobject/user_id.go`                — `UserID`
* `domain/valueobject/recommendation_reason.go`  — `RecommendationReason`
* `domain/aggregate` (`UserRecommendation`)      — candidate recommendations
* `domain/aggregate` (`RecommendationList`)      — the collection aggregate
* `domain/service/recommendation_generator.go`   — the two-hop generator

Conventions of the embedding:

* Go `int`/`int64` are modelled as `Int` (no claim exercises 64-bit
  overflow); `time.Time` is modelled as `Int` nanoseconds since the epoch,
  with `time.Hour = 3600 * 10^9` as in Go's `time` package.
* Effects are made explicit: `time.Now()` becomes a `now : Int` parameter,
  `uuid.New()` becomes a supplied `RecommendationID`, and methods that
  mutate their receiver return the new value (together with the `error`
  result, mirroring Go's `(receiver-state, error)` behaviour).
* Go maps keyed by `UserID` are modelled as association lists in key
  first-insertion order (Go's iteration order is unspecified; every claim
  checked against this model is insensitive to that order).
* `sort.Slice` is embedded by the actual algorithm used by Go ≥ 1.19
  (the repository builds with Go 1.22): pattern-defeating quicksort from
  `sort/zsortfunc.go`, reproduced operation-for-operation below.
-/

/-- Errors produced with `errors.New` in the repository; upstream
(repository-interface) failures are modelled by `errMsg`. -/
inductive GoErr where
  | cannotRecommendSelf
  | duplicateRecommendation
  | noReasonForRecommendation
  | invalidUserID
  | errMsg (s : String)
deriving DecidableEq, Repr, Inhabited

/-- `valueobject.UserID`: wrapper around an `int64` value. -/
structure UserID where
  value : Int
deriving DecidableEq, Repr, Inhabited

/-- `UserID.Equals`: value equality. -/
def UserID.Equals (u other : UserID) : Bool :=
  u.value == other.value

/-- `valueobject.NewUserID`: rejects non-positive raw values. -/
def NewUserID (value : Int) : Except GoErr UserID :=
  if value ≤ 0 then .error .invalidUserID
  else .ok ⟨value⟩

/-- `valueobject.RecommendationID`: UUID string wrapper. -/
structure RecommendationID where
  value : String
deriving DecidableEq, Repr, Inhabited

/-- Go `type ReasonType int`. -/
abbrev ReasonType := Int

/-- `ReasonFollowedByFollowing ReasonType = iota` (= 0). -/
def ReasonFollowedByFollowing : ReasonType := 0

/-- `ReasonPopularInNetwork` (= 1). -/
def ReasonPopularInNetwork : ReasonType := 1

/-- `valueobject.RecommendationReason` (current version, with the
backend-configurable `displayText` field). -/
structure RecommendationReason where
  reasonType : ReasonType
  relatedUsers : List UserID
  displayText : String
deriving DecidableEq, Repr, Inhabited

/-- `NewFollowedByFollowingReason`. -/
def NewFollowedByFollowingReason (users : List UserID) : RecommendationReason :=
  { reasonType := ReasonFollowedByFollowing, relatedUsers := users, displayText := "" }

/-- `NewPopularInNetworkReason`. -/
def NewPopularInNetworkReason (users : List UserID) : RecommendationReason :=
  { reasonType := ReasonPopularInNetwork, relatedUsers := users, displayText := "" }

/-- `RecommendationReason.RelatedUsers` (returns a copy; a copy of a Lean
list is the list itself). -/
def RecommendationReason.RelatedUsers (r : RecommendationReason) : List UserID :=
  r.relatedUsers

/-- `RecommendationReason.Weight`:
`FollowedByFollowing → 10 per related user`, `PopularInNetwork → 5`,
default → `1`. -/
def RecommendationReason.Weight (r : RecommendationReason) : Int :=
  if r.reasonType = ReasonFollowedByFollowing then (r.relatedUsers.length : Int) * 10
  else if r.reasonType = ReasonPopularInNetwork then 5
  else 1

/-- `time.Hour` in nanoseconds. -/
def timeHour : Int := 3600 * 1000000000

/-- `time.Second` in nanoseconds. -/
def timeSecond : Int := 1000000000

/-- One day (24 hours) in nanoseconds. -/
def timeDay : Int := 24 * timeHour

/-- `aggregate.UserRecommendation`. -/
structure UserRecommendation where
  id : RecommendationID
  targetUserID : UserID
  reason : RecommendationReason
  score : Int
  recentPostCount : Int
  createdAt : Int
  expiresAt : Int
deriving DecidableEq, Repr, Inhabited

/-- `aggregate.calculateScore`: the reason weight, plus `postCount * 2`
only when `postCount > 0`. -/
def calculateScore (reason : RecommendationReason) (postCount : Int) : Int :=
  let score := reason.Weight
  if postCount > 0 then score + postCount * 2 else score

/-- `aggregate.NewUserRecommendation`. The Go factory draws `uuid.New()`
and `time.Now()`; both are explicit parameters here (`id`, `now`). -/
def NewUserRecommendation (id : RecommendationID) (now : Int)
    (targetUserID : UserID) (reason : RecommendationReason)
    (recentPostCount : Int) : Except GoErr UserRecommendation :=
  if reason.RelatedUsers.length = 0 then
    .error .noReasonForRecommendation
  else
    .ok { id := id
          targetUserID := targetUserID
          reason := reason
          score := calculateScore reason recentPostCount
          recentPostCount := recentPostCount
          createdAt := now
          expiresAt := now + 7 * 24 * timeHour }

/-- `UserRecommendation.IsExpired`: `time.Now().After(expiresAt)`, with
`time.Now()` the explicit `now` parameter (`After` is strict). -/
def UserRecommendation.IsExpired (r : UserRecommendation) (now : Int) : Bool :=
  now > r.expiresAt

/-- `UserRecommendation.UpdatePostCount`: stores the new count and
recomputes the score. -/
def UserRecommendation.UpdatePostCount (r : UserRecommendation) (newCount : Int) :
    UserRecommendation :=
  { r with recentPostCount := newCount, score := calculateScore r.reason newCount }

/-- `UserRecommendation.Refresh`: pushes `expiresAt` 7 days past `now`. -/
def UserRecommendation.Refresh (r : UserRecommendation) (now : Int) : UserRecommendation :=
  { r with expiresAt := now + 7 * 24 * timeHour }

/-- `aggregate.RecommendationList`. -/
structure RecommendationList where
  forUserID : UserID
  recommendations : List UserRecommendation
  generatedAt : Int
deriving DecidableEq, Repr, Inhabited

/-- `aggregate.NewRecommendationList` (`time.Now()` is the `now` parameter). -/
def NewRecommendationList (forUserID : UserID) (now : Int) : RecommendationList :=
  { forUserID := forUserID, recommendations := [], generatedAt := now }

/-- `RecommendationList.AddRecommendation`. Returns the updated receiver
together with the Go `error` result (`none` = `nil`). -/
def RecommendationList.AddRecommendation (l : RecommendationList)
    (rec : UserRecommendation) : RecommendationList × Option GoErr :=
  if rec.targetUserID.Equals l.forUserID then
    (l, some .cannotRecommendSelf)
  else if l.recommendations.any (fun existing => existing.targetUserID.Equals rec.targetUserID) then
    (l, some .duplicateRecommendation)
  else
    ({ l with recommendations := l.recommendations ++ [rec] }, none)

/-- `RecommendationList.RemoveExpired`. -/
def RecommendationList.RemoveExpired (l : RecommendationList) (now : Int) :
    RecommendationList :=
  { l with recommendations := l.recommendations.filter (fun rec => !(rec.IsExpired now)) }

/-- `RecommendationList.FilterByMinScore`. -/
def RecommendationList.FilterByMinScore (l : RecommendationList) (minScore : Int) :
    RecommendationList :=
  { l with recommendations := l.recommendations.filter (fun rec => rec.score ≥ minScore) }

/-- `RecommendationList.Count`. -/
def RecommendationList.Count (l : RecommendationList) : Int :=
  (l.recommendations.length : Int)

/-- `RecommendationList.IsEmpty`. -/
def RecommendationList.IsEmpty (l : RecommendationList) : Bool :=
  l.recommendations.length == 0

/-- `RecommendationList.All` (returns a copy; a copy of a Lean list is the
list itself). -/
def RecommendationList.All (l : RecommendationList) : List UserRecommendation :=
  l.recommendations

/-!
## `sort.Slice` — Go's pattern-defeating quicksort (`sort/zsortfunc.go`)

The slice being sorted is a `List α`; every mutation in the Go code is a
`data.Swap(i, j)`, embedded as `lswap`, and every read `data.Less(i, j)`
becomes `lt (lget l i) (lget l j)` (the repository's comparison closure
reads the slice elements being permuted).  Loops are embedded by
structural recursion on the loop variable, or, where the Go loop is not
structurally decreasing, on an explicit fuel argument that is chosen
large enough never to run out on the ranges Go runs them on.
-/

/-- Element read `data[i]` (all reads in the algorithm are in bounds). -/
def lget {α : Type} [Inhabited α] (l : List α) (i : Nat) : α :=
  l.getD i default

/-- `data.Swap(i, j)`. -/
def lswap {α : Type} [Inhabited α] (l : List α) (i j : Nat) : List α :=
  (l.set i (lget l j)).set j (lget l i)

/-- Inner loop of `insertionSort_func`:
`for j := i; j > a && data.Less(j, j-1); j-- { data.Swap(j, j-1) }`.
The second argument is the loop variable `j`. -/
def bubbleA {α : Type} [Inhabited α] (lt : α → α → Bool) (a : Nat) :
    List α → Nat → List α
  | l, 0 => l
  | l, j + 1 =>
    if a ≤ j ∧ lt (lget l (j + 1)) (lget l j) = true then
      bubbleA lt a (lswap l (j + 1) j) j
    else l

/-- Outer loop of `insertionSort_func`: `for i := a + 1; i < b; i++`.
The last argument is the remaining iteration count `b - i`. -/
def insLoopF {α : Type} [Inhabited α] (lt : α → α → Bool) (a : Nat) :
    List α → Nat → Nat → List α
  | l, _, 0 => l
  | l, i, k + 1 => insLoopF lt a (bubbleA lt a l i) (i + 1) k

/-- `insertionSort_func(data, a, b)`. -/
def insertionSortF {α : Type} [Inhabited α] (lt : α → α → Bool)
    (l : List α) (a b : Nat) : List α :=
  insLoopF lt a l (a + 1) (b - (a + 1))

/-- `siftDown_func(data, lo, hi, first)`; recursion on the descending
heap path, with fuel (`hi` suffices, the root at least doubles). -/
def siftDownF {α : Type} [Inhabited α] (lt : α → α → Bool) (hi first : Nat) :
    List α → Nat → Nat → List α
  | l, _, 0 => l
  | l, root, fuel + 1 =>
    let child := 2 * root + 1
    if child ≥ hi then l
    else
      let child := if child + 1 < hi ∧ lt (lget l (first + child)) (lget l (first + child + 1)) = true
        then child + 1 else child
      if lt (lget l (first + root)) (lget l (first + child)) = false then l
      else siftDownF lt hi first (lswap l (first + root) (first + child)) child fuel

/-- First loop of `heapSort_func`: build the heap,
`for i := (hi-1)/2; i >= 0; i--`. The argument is `i + 1`. -/
def heapifyF {α : Type} [Inhabited α] (lt : α → α → Bool) (hi first : Nat) :
    List α → Nat → List α
  | l, 0 => l
  | l, i + 1 => heapifyF lt hi first (siftDownF lt hi first l i hi) i

/-- Second loop of `heapSort_func`: pop elements,
`for i := hi - 1; i >= 0; i-- { Swap(first, first+i); siftDown(lo, i, first) }`.
The argument is `i + 1`. -/
def heapPopF {α : Type} [Inhabited α] (lt : α → α → Bool) (first : Nat) :
    List α → Nat → List α
  | l, 0 => l
  | l, i + 1 => heapPopF lt first (siftDownF lt i first (lswap l first (first + i)) 0 (i + 1)) i

/-- `heapSort_func(data, a, b)`. -/
def heapSortF {α : Type} [Inhabited α] (lt : α → α → Bool) (l : List α) (a b : Nat) : List α :=
  let first := a
  let hi := b - a
  heapPopF lt first (heapifyF lt hi first l ((hi - 1) / 2 + 1)) hi

/-- `reverseRange_func(data, a, b)` body: `i, j := a, b-1`; swap and move
inward while `i < j`. Fuel `b` suffices. -/
def revRangeAux {α : Type} [Inhabited α] : List α → Nat → Nat → Nat → List α
  | l, _, _, 0 => l
  | l, i, j, fuel + 1 => if i < j then revRangeAux (lswap l i j) (i + 1) (j - 1) fuel else l

/-- `reverseRange_func(data, a, b)`. -/
def reverseRangeF {α : Type} [Inhabited α] (l : List α) (a b : Nat) : List α :=
  revRangeAux l a (b - 1) b

/-- `order2_func`: orders two indices by the values they point at,
counting a swap; mutates nothing. -/
def order2F {α : Type} [Inhabited α] (lt : α → α → Bool) (l : List α)
    (a b swaps : Nat) : Nat × Nat × Nat :=
  if lt (lget l b) (lget l a) = true then (b, a, swaps + 1) else (a, b, swaps)

/-- `median_func`: index of the median of three values. -/
def medianF {α : Type} [Inhabited α] (lt : α → α → Bool) (l : List α)
    (a b c swaps : Nat) : Nat × Nat :=
  let (a, b, swaps) := order2F lt l a b swaps
  let (b, c, swaps) := order2F lt l b c swaps
  let _ := c
  let (_, b, swaps) := order2F lt l a b swaps
  (b, swaps)

/-- `medianAdjacent_func`: median of `a-1, a, a+1`. -/
def medianAdjacentF {α : Type} [Inhabited α] (lt : α → α → Bool) (l : List α)
    (a swaps : Nat) : Nat × Nat :=
  medianF lt l (a - 1) a (a + 1) swaps

/-- Go's `sortedHint`. -/
inductive SortedHint where
  | unknown
  | increasing
  | decreasing
deriving DecidableEq, Repr, Inhabited

/-- `choosePivot_func` (`shortestNinther = 50`, `maxSwaps = 12`). -/
def choosePivotF {α : Type} [Inhabited α] (lt : α → α → Bool) (l : List α)
    (a b : Nat) : Nat × SortedHint :=
  let length := b - a
  let i := a + length / 4 * 1
  let j := a + length / 4 * 2
  let k := a + length / 4 * 3
  if length ≥ 8 then
    let (i, j, k, swaps) :=
      if length ≥ 50 then
        let (i, s) := medianAdjacentF lt l i 0
        let (j, s) := medianAdjacentF lt l j s
        let (k, s) := medianAdjacentF lt l k s
        (i, j, k, s)
      else (i, j, k, 0)
    let (j, swaps) := medianF lt l i j k swaps
    if swaps = 0 then (j, .increasing)
    else if swaps = 12 then (j, .decreasing)
    else (j, .unknown)
  else (j, .increasing)

/-- Scan `for i < b && !data.Less(i, i-1) { i++ }` of
`partialInsertionSort_func`; returns the new `i`. -/
def scanSortedF {α : Type} [Inhabited α] (lt : α → α → Bool) (l : List α) (b : Nat) :
    Nat → Nat → Nat
  | i, 0 => i
  | i, fuel + 1 =>
    if i < b ∧ lt (lget l i) (lget l (i - 1)) = false then scanSortedF lt l b (i + 1) fuel
    else i

/-- Right-shift loop of `partialInsertionSort_func`:
`for j := i + 1; j < b; j++ { if !Less(j, j-1) break; Swap(j, j-1) }`. -/
def bubRightF {α : Type} [Inhabited α] (lt : α → α → Bool) (b : Nat) :
    List α → Nat → Nat → List α
  | l, _, 0 => l
  | l, j, fuel + 1 =>
    if j < b then
      if lt (lget l j) (lget l (j - 1)) = false then l
      else bubRightF lt b (lswap l j (j - 1)) (j + 1) fuel
    else l

/-- `partialInsertionSort_func(data, a, b)` (`maxSteps = 5`,
`shortestShifting = 50`); returns the data and the Bool result.  The
left-shift loop (`for j := i - 1; j >= 1; j--`) is `bubbleA lt 0`. -/
def partInsAuxF {α : Type} [Inhabited α] (lt : α → α → Bool) (a b : Nat) :
    List α → Nat → Nat → List α × Bool
  | l, _, 0 => (l, false)
  | l, i, step + 1 =>
    let i := scanSortedF lt l b i b
    if i = b then (l, true)
    else if b - a < 50 then (l, false)
    else
      let l := lswap l i (i - 1)
      let l := if i - a ≥ 2 then bubbleA lt 0 l (i - 1) else l
      let l := if b - i ≥ 2 then bubRightF lt b l (i + 1) b else l
      partInsAuxF lt a b l i step

/-- `partialInsertionSort_func(data, a, b)`. -/
def partInsSortF {α : Type} [Inhabited α] (lt : α → α → Bool) (l : List α)
    (a b : Nat) : List α × Bool :=
  partInsAuxF lt a b l (a + 1) 5

/-- Scan `for i <= j && data.Less(i, a) { i++ }` of `partition_func`. -/
def pScanIF {α : Type} [Inhabited α] (lt : α → α → Bool) (l : List α) (a : Nat) :
    Nat → Nat → Nat → Nat
  | i, _, 0 => i
  | i, j, fuel + 1 =>
    if i ≤ j ∧ lt (lget l i) (lget l a) = true then pScanIF lt l a (i + 1) j fuel else i

/-- Scan `for i <= j && !data.Less(j, a) { j-- }` of `partition_func`. -/
def pScanJF {α : Type} [Inhabited α] (lt : α → α → Bool) (l : List α) (a : Nat) :
    Nat → Nat → Nat → Nat
  | _, j, 0 => j
  | i, j, fuel + 1 =>
    if i ≤ j ∧ lt (lget l j) (lget l a) = false then pScanJF lt l a i (j - 1) fuel else j

/-- Main loop of `partition_func` after the first crossing swap; returns
the data and the final `j`. -/
def partLoopF {α : Type} [Inhabited α] (lt : α → α → Bool) (a b : Nat) :
    List α → Nat → Nat → Nat → List α × Nat
  | l, _, j, 0 => (l, j)
  | l, i, j, fuel + 1 =>
    let i := pScanIF lt l a i j (b + 2)
    let j := pScanJF lt l a i j (b + 2)
    if i > j then (l, j)
    else partLoopF lt a b (lswap l i j) (i + 1) (j - 1) fuel

/-- `partition_func(data, a, b, pivot)`: returns
`(data, newpivot, alreadyPartitioned)`. -/
def partitionF {α : Type} [Inhabited α] (lt : α → α → Bool) (l : List α)
    (a b pivot : Nat) : List α × Nat × Bool :=
  let l := lswap l a pivot
  let i := pScanIF lt l a (a + 1) (b - 1) (b + 2)
  let j := pScanJF lt l a i (b - 1) (b + 2)
  if i > j then (lswap l j a, j, true)
  else
    let l := lswap l i j
    let (l, j) := partLoopF lt a b l (i + 1) (j - 1) (b + 2)
    (lswap l j a, j, false)

/-- Scan `for i <= j && !data.Less(a, i) { i++ }` of `partitionEqual_func`. -/
def peScanIF {α : Type} [Inhabited α] (lt : α → α → Bool) (l : List α) (a : Nat) :
    Nat → Nat → Nat → Nat
  | i, _, 0 => i
  | i, j, fuel + 1 =>
    if i ≤ j ∧ lt (lget l a) (lget l i) = false then peScanIF lt l a (i + 1) j fuel else i

/-- Scan `for i <= j && data.Less(a, j) { j-- }` of `partitionEqual_func`. -/
def peScanJF {α : Type} [Inhabited α] (lt : α → α → Bool) (l : List α) (a : Nat) :
    Nat → Nat → Nat → Nat
  | _, j, 0 => j
  | i, j, fuel + 1 =>
    if i ≤ j ∧ lt (lget l a) (lget l j) = true then peScanJF lt l a i (j - 1) fuel else j

/-- Main loop of `partitionEqual_func`; returns the data and the final `i`. -/
def partEqLoopF {α : Type} [Inhabited α] (lt : α → α → Bool) (a b : Nat) :
    List α → Nat → Nat → Nat → List α × Nat
  | l, i, _, 0 => (l, i)
  | l, i, j, fuel + 1 =>
    let i := peScanIF lt l a i j (b + 2)
    let j := peScanJF lt l a i j (b + 2)
    if i > j then (l, i)
    else partEqLoopF lt a b (lswap l i j) (i + 1) (j - 1) fuel

/-- `partitionEqual_func(data, a, b, pivot)`: returns `(data, newpivot)`. -/
def partitionEqualF {α : Type} [Inhabited α] (lt : α → α → Bool) (l : List α)
    (a b pivot : Nat) : List α × Nat :=
  let l := lswap l a pivot
  partEqLoopF lt a b l (a + 1) (b - 1) (b + 2)

/-- One step of Go's `xorshift` PRNG on a `uint64` state. -/
def xorshiftNextF (r : Nat) : Nat :=
  let r := (r ^^^ (r <<< 13)) % 2 ^ 64
  let r := (r ^^^ (r >>> 7)) % 2 ^ 64
  (r ^^^ (r <<< 17)) % 2 ^ 64

/-- `bits.Len` for `uint`. -/
def bitsLenF (n : Nat) : Nat :=
  if n = 0 then 0 else n.log2 + 1

/-- `nextPowerOfTwo(length) = 1 << bits.Len(uint(length))`. -/
def nextPowerOfTwoF (length : Nat) : Nat :=
  2 ^ bitsLenF length

/-- The three randomized swaps of `breakPatterns_func`. -/
def breakPatLoopF {α : Type} [Inhabited α] (a length modulus idx : Nat) :
    List α → Nat → Nat → List α
  | l, _, 0 => l
  | l, random, count + 1 =>
    let random := xorshiftNextF random
    let other := random &&& (modulus - 1)
    let other := if other ≥ length then other - length else other
    let i := 3 - (count + 1)
    breakPatLoopF a length modulus idx (lswap l (idx - 1 + i) (a + other)) random count

/-- `breakPatterns_func(data, a, b)`. -/
def breakPatternsF {α : Type} [Inhabited α] (l : List α) (a b : Nat) : List α :=
  let length := b - a
  if length ≥ 8 then
    let random := length
    let modulus := nextPowerOfTwoF length
    let idx := a + length / 4 * 2 - 1
    breakPatLoopF a length modulus idx l random 3
  else l

/-- `pdqsort_func(data, a, b, limit)` with loop state `wasBalanced`,
`wasPartitioned` as arguments and an explicit fuel.  Each fuel step
strictly shrinks `b - a`, so fuel `n + 1` never runs out when sorting a
list of length `n`. -/
def pdqsortF {α : Type} [Inhabited α] (lt : α → α → Bool) :
    List α → Nat → Nat → Nat → Bool → Bool → Nat → List α
  | l, _, _, _, _, _, 0 => l
  | l, a, b, limit, wasBalanced, wasPartitioned, fuel + 1 =>
    let length := b - a
    if length ≤ 12 then insertionSortF lt l a b
    else if limit = 0 then heapSortF lt l a b
    else
      let (l, limit) :=
        if wasBalanced = false then (breakPatternsF l a b, limit - 1) else (l, limit)
      let (pivot, hint) := choosePivotF lt l a b
      let (l, pivot, hint) :=
        if hint = .decreasing then
          (reverseRangeF l a b, (b - 1) - (pivot - a), SortedHint.increasing)
        else (l, pivot, hint)
      let (l, sortedNow) :=
        if wasBalanced = true ∧ wasPartitioned = true ∧ hint = .increasing then
          partInsSortF lt l a b
        else (l, false)
      if sortedNow = true then l
      else if 0 < a ∧ lt (lget l (a - 1)) (lget l pivot) = false then
        let (l, mid) := partitionEqualF lt l a b pivot
        pdqsortF lt l mid b limit wasBalanced wasPartitioned fuel
      else
        let (l, mid, alreadyPartitioned) := partitionF lt l a b pivot
        let wasPartitioned := alreadyPartitioned
        let leftLen := mid - a
        let rightLen := b - mid
        let balanceThreshold := length / 8
        let wasBalanced := decide (min leftLen rightLen ≥ balanceThreshold)
        if leftLen < rightLen then
          let l := pdqsortF lt l a mid limit true true fuel
          pdqsortF lt l (mid + 1) b limit wasBalanced wasPartitioned fuel
        else
          let l := pdqsortF lt l (mid + 1) b limit wasBalanced wasPartitioned fuel
          pdqsortF lt l a mid limit true true fuel

/-- `sort.Slice(x, less)`:
`pdqsort_func(lessSwap, 0, length, bits.Len(uint(length)))`. -/
def sortSliceF {α : Type} [Inhabited α] (lt : α → α → Bool) (l : List α) : List α :=
  pdqsortF lt l 0 l.length (bitsLenF l.length) true true (l.length + 1)

/-- The comparison closure of `GetTopN`:
`func(i, j int) bool { return sorted[i].Score() > sorted[j].Score() }`. -/
def scoreGt (x y : UserRecommendation) : Bool :=
  x.score > y.score

/-- `RecommendationList.GetTopN`.  The Go method copies the slice, sorts
the copy with `sort.Slice`, and returns `sorted[:n]` when
`len(sorted) > n` (else the whole copy).  The slice expression
`sorted[:n]` panics when `n < 0`; a panic is modelled by `none`. -/
def RecommendationList.GetTopN (l : RecommendationList) (n : Int) :
    Option (List UserRecommendation) :=
  let sorted := sortSliceF scoreGt l.recommendations
  if (sorted.length : Int) > n then
    if n < 0 then none
    else some (sorted.take n.toNat)
  else some sorted

/-!
## The recommendation generator (`domain/service/recommendation_generator.go`)

The two repository interfaces are records of functions; a failing Go call
returns `.error e`.  The `ctx` parameter carries no semantics here.  The
map `recentFollowedUsers` is an association list in key first-insertion
order; `time.Now()` and `uuid.New()` are the explicit `now` and `mkId`
parameters.
-/

/-- `repository.SocialGraphRepository` (the unused `IsFollowing` method
is omitted). -/
structure SocialGraphRepository where
  GetFollowings : UserID → Except GoErr (List UserID)
  GetRecentFollowings : UserID → Int → Except GoErr (List UserID)

/-- `repository.ContentRepository`, as used by the generator. -/
structure ContentRepository where
  CountRecentPosts : UserID → Int → Except GoErr Int

/-- The map `recentFollowedUsers`: candidate user ↦ list of followers
that led to it (in discovery order). -/
abbrev FollowMap := List (UserID × List UserID)

/-- `recentFollowedUsers[newFollow] = append(recentFollowedUsers[newFollow], following)`:
appends to the entry for `newFollow`, creating it at the end on first
insertion. -/
def mapAppend (m : FollowMap) (newFollow following : UserID) : FollowMap :=
  match m with
  | [] => [(newFollow, [following])]
  | (k, vs) :: rest =>
    if k = newFollow then (k, vs ++ [following]) :: rest
    else (k, vs) :: mapAppend rest newFollow following

/-- Step 2 of the generator: for each hop-1 `following`, fetch its recent
followings and record the evidence; a failed fetch is skipped
(`continue`). -/
def accumulateRecent (social : SocialGraphRepository) (days : Int) :
    FollowMap → List UserID → FollowMap
  | m, [] => m
  | m, following :: rest =>
    match social.GetRecentFollowings following days with
    | .error _ => accumulateRecent social days m rest
    | .ok recentFollows =>
      accumulateRecent social days
        (recentFollows.foldl (fun acc newFollow => mapAppend acc newFollow following) m) rest

/-- Step 3 of the generator: build a `UserRecommendation` per map entry
(a failed post-count lookup defaults to `0`; invalid or rejected
candidates are skipped). -/
def buildRecommendations (content : ContentRepository)
    (mkId : UserID → RecommendationID) (now : Int) (days : Int) :
    RecommendationList → FollowMap → RecommendationList
  | lst, [] => lst
  | lst, (targetUserID, followedBy) :: rest =>
    let postCount :=
      match content.CountRecentPosts targetUserID days with
      | .error _ => 0
      | .ok c => c
    let reason := NewFollowedByFollowingReason followedBy
    match NewUserRecommendation (mkId targetUserID) now targetUserID reason postCount with
    | .error _ => buildRecommendations content mkId now days lst rest
    | .ok recommendation =>
      buildRecommendations content mkId now days
        (lst.AddRecommendation recommendation).1 rest

/-- `GenerateFollowingBasedRecommendations`. -/
def GenerateFollowingBasedRecommendations
    (social : SocialGraphRepository) (content : ContentRepository)
    (mkId : UserID → RecommendationID) (now : Int)
    (forUserID : UserID) (days : Int) : Except GoErr RecommendationList :=
  let lst := NewRecommendationList forUserID now
  match social.GetFollowings forUserID with
  | .error e => .error e
  | .ok followings =>
    if followings.length = 0 then .ok lst
    else
      let recentFollowedUsers := accumulateRecent social days [] followings
      .ok (buildRecommendations content mkId now days lst recentFollowedUsers)

/-!
## Basic lemmas
-/

theorem UserID.equals_iff (u v : UserID) : u.Equals v = true ↔ u = v := by
  cases u
  cases v
  simp [UserID.Equals]

theorem UserID.equals_false_iff (u v : UserID) : u.Equals v = false ↔ u ≠ v := by
  rw [← Bool.not_eq_true, not_iff_not]
  exact UserID.equals_iff u v

/-- Success characterization of the candidate factory. -/
theorem newUserRecommendation_ok (id : RecommendationID) (now : Int)
    (target : UserID) (reason : RecommendationReason) (count : Int)
    (h : reason.relatedUsers ≠ []) :
    NewUserRecommendation id now target reason count =
      .ok { id := id
            targetUserID := target
            reason := reason
            score := calculateScore reason count
            recentPostCount := count
            createdAt := now
            expiresAt := now + 7 * 24 * timeHour } := by
  unfold NewUserRecommendation
  rw [if_neg]
  simp [RecommendationReason.RelatedUsers, List.length_eq_zero]
  exact h

/-!
## C4 — `UpdatePostCount`
-/

/-- A concrete candidate for the `UpdatePostCount` analysis: one evidence
user, so `reason.Weight = 10`. -/
def recC4 : UserRecommendation :=
  { id := ⟨"r"⟩
    targetUserID := ⟨2⟩
    reason := NewFollowedByFollowingReason [⟨3⟩]
    score := 10
    recentPostCount := 0
    createdAt := 0
    expiresAt := 7 * 24 * timeHour }

/-- C4, counterexample.  `recC4` is produced by the candidate factory, and
updating its post count to `-1` leaves the score at the bare reason
weight (`10`), not at `Weight + (-1) * 2 = 8` as the claim demands for
negative counts: `calculateScore` only adds the activity bonus when the
count is positive. -/
theorem updatePostCount_claim_counterexample :
    NewUserRecommendation ⟨"r"⟩ 0 ⟨2⟩ (NewFollowedByFollowingReason [⟨3⟩]) 0 = .ok recC4 ∧
    (recC4.UpdatePostCount (-1)).recentPostCount = -1 ∧
    (recC4.UpdatePostCount (-1)).score ≠
      (recC4.UpdatePostCount (-1)).reason.Weight + (-1) * 2 := by
  refine ⟨?_, by decide, by decide⟩
  rw [newUserRecommendation_ok _ _ _ _ _ (by decide)]
  rfl

/-- C4, amended.  `UpdatePostCount(count)` sets `recentPostCount := count`
and recomputes the score, but the activity bonus `count * 2` is only added
for `count > 0`; for `count ≤ 0` the score is exactly the reason weight. -/
theorem updatePostCount_spec (r : UserRecommendation) (count : Int) :
    (r.UpdatePostCount count).recentPostCount = count ∧
    (r.UpdatePostCount count).reason = r.reason ∧
    (r.UpdatePostCount count).score =
      r.reason.Weight + (if 0 < count then count * 2 else 0) := by
  refine ⟨rfl, rfl, ?_⟩
  simp only [UserRecommendation.UpdatePostCount, calculateScore]
  split
  · rfl
  · simp

/-!
## C9 — expiry
-/

/-- C9.  A candidate created at `now = t0` expires exactly 7 days later:
`IsExpired t` holds iff `t` is strictly after `t0 + 7 days`; in
particular it is false at `t0 + 6 days` and true at `t0 + 7 days + 1 s`. -/
theorem isExpired_spec (id : RecommendationID) (t0 : Int) (target : UserID)
    (reason : RecommendationReason) (count : Int) (r : UserRecommendation)
    (h : NewUserRecommendation id t0 target reason count = .ok r) :
    r.createdAt = t0 ∧
    r.expiresAt = t0 + 7 * timeDay ∧
    (∀ t : Int, r.IsExpired t = true ↔ t0 + 7 * timeDay < t) ∧
    r.IsExpired (t0 + 6 * timeDay) = false ∧
    r.IsExpired (t0 + 7 * timeDay + timeSecond) = true := by
  unfold NewUserRecommendation at h
  split at h
  · exact absurd h (by simp)
  · injection h with h2
    subst h2
    have hd : t0 + (7 : Int) * 24 * timeHour = t0 + 7 * timeDay := by
      simp [timeDay]
      ring
    refine ⟨rfl, hd, ?_, ?_, ?_⟩
    · intro t
      show decide (t0 + 7 * 24 * timeHour < t) = true ↔ t0 + 7 * timeDay < t
      rw [decide_eq_true_eq, hd]
    · show decide (t0 + 7 * 24 * timeHour < t0 + 6 * timeDay) = false
      rw [decide_eq_false_iff_not]
      simp [timeDay, timeHour]
    · show decide (t0 + 7 * 24 * timeHour < t0 + 7 * timeDay + timeSecond) = true
      rw [decide_eq_true_eq]
      simp [timeDay, timeHour, timeSecond]

/-- Witness for `isExpired_spec` at a concrete candidate. -/
theorem isExpired_spec_witness :
    recC4.createdAt = 0 ∧
    recC4.expiresAt = 0 + 7 * timeDay ∧
    (∀ t : Int, recC4.IsExpired t = true ↔ 0 + 7 * timeDay < t) ∧
    recC4.IsExpired (0 + 6 * timeDay) = false ∧
    recC4.IsExpired (0 + 7 * timeDay + timeSecond) = true :=
  isExpired_spec ⟨"r"⟩ 0 ⟨2⟩ (NewFollowedByFollowingReason [⟨3⟩]) 0 recC4
    (by rw [newUserRecommendation_ok _ _ _ _ _ (by decide)]; rfl)

/-!
## C10 — `GetTopN` panics on negative `n`
-/

/-- C10.  `GetTopN(n)` always reaches the branch `len(sorted) > n` when
`n < 0` (a length is never negative), and the slice expression
`sorted[:n]` then panics — modelled by `none`.  For `n ≥ 0` the call
always returns a list. -/
theorem getTopN_negative_panics (l : RecommendationList) (n : Int) :
    (n < 0 → l.GetTopN n = none) ∧
    (0 ≤ n → (l.GetTopN n).isSome = true) := by
  constructor
  · intro hn
    unfold RecommendationList.GetTopN
    rw [if_pos, if_pos hn]
    calc n < 0 := hn
    _ ≤ ((sortSliceF scoreGt l.recommendations).length : Int) := by positivity
  · intro hn
    simp only [RecommendationList.GetTopN]
    rw [if_neg (show ¬n < 0 by omega)]
    split
    · rfl
    · rfl

/-- Witness for `getTopN_negative_panics`: the empty collection panics at
`n = -1` and returns a list at `n = 0`. -/
theorem getTopN_negative_panics_witness :
    (NewRecommendationList ⟨1⟩ 0).GetTopN (-1) = none ∧
    ((NewRecommendationList ⟨1⟩ 0).GetTopN 0).isSome = true :=
  ⟨(getTopN_negative_panics (NewRecommendationList ⟨1⟩ 0) (-1)).1 (by decide),
   (getTopN_negative_panics (NewRecommendationList ⟨1⟩ 0) 0).2 (by decide)⟩

/-!
## C5 — `AddRecommendation`
-/

/-- C5.  `AddRecommendation` returns `ErrCannotRecommendSelf` when the
candidate targets the owner; otherwise `ErrDuplicateRecommendation` when
a member with the same target exists; otherwise it appends the candidate
and returns no error.  Whenever an error is returned the membership is
unchanged. -/
theorem addRecommendation_spec (l : RecommendationList) (c : UserRecommendation) :
    (c.targetUserID = l.forUserID →
      l.AddRecommendation c = (l, some GoErr.cannotRecommendSelf)) ∧
    (c.targetUserID ≠ l.forUserID →
      (∃ r ∈ l.recommendations, r.targetUserID = c.targetUserID) →
      l.AddRecommendation c = (l, some GoErr.duplicateRecommendation)) ∧
    (c.targetUserID ≠ l.forUserID →
      (∀ r ∈ l.recommendations, r.targetUserID ≠ c.targetUserID) →
      l.AddRecommendation c =
        ({ l with recommendations := l.recommendations ++ [c] }, none)) ∧
    (∀ e, (l.AddRecommendation c).2 = some e → (l.AddRecommendation c).1 = l) := by
  refine ⟨?_, ?_, ?_, ?_⟩
  · intro hself
    unfold RecommendationList.AddRecommendation
    rw [if_pos ((UserID.equals_iff _ _).mpr hself)]
  · intro hself ⟨r, hr, htar⟩
    unfold RecommendationList.AddRecommendation
    rw [if_neg, if_pos]
    · rw [List.any_eq_true]
      exact ⟨r, hr, (UserID.equals_iff _ _).mpr htar⟩
    · rw [UserID.equals_iff]
      exact hself
  · intro hself hnodup
    unfold RecommendationList.AddRecommendation
    rw [if_neg, if_neg]
    · rw [List.any_eq_true]
      rintro ⟨r, hr, htar⟩
      exact hnodup r hr ((UserID.equals_iff _ _).mp htar)
    · rw [UserID.equals_iff]
      exact hself
  · intro e
    unfold RecommendationList.AddRecommendation
    split
    · intro _
      rfl
    · split
      · intro _
        rfl
      · intro h
        exact absurd h (by simp)

/-- A concrete owner and candidates for witnesses. -/
def listW : RecommendationList := NewRecommendationList ⟨100⟩ 0

/-- Candidate targeting user 2 (not the owner of `listW`). -/
def candW : UserRecommendation := recC4

/-- Candidate targeting the owner of `listW`. -/
def candSelfW : UserRecommendation := { recC4 with targetUserID := ⟨100⟩ }

/-- Witness for `addRecommendation_spec`: on the empty collection owned by
user 100, adding a candidate for user 2 succeeds, adding it again is a
duplicate, and adding a candidate for user 100 is a self-recommendation. -/
theorem addRecommendation_spec_witness :
    listW.AddRecommendation candW =
      ({ listW with recommendations := listW.recommendations ++ [candW] }, none) ∧
    ((listW.AddRecommendation candW).1.AddRecommendation candW =
      ((listW.AddRecommendation candW).1, some GoErr.duplicateRecommendation)) ∧
    (listW.AddRecommendation candSelfW = (listW, some GoErr.cannotRecommendSelf)) := by
  refine ⟨?_, ?_, ?_⟩
  · exact (addRecommendation_spec listW candW).2.2.1 (by decide) (by decide)
  · exact (addRecommendation_spec (listW.AddRecommendation candW).1 candW).2.1
      (by decide) ⟨candW, by decide, rfl⟩
  · exact (addRecommendation_spec listW candSelfW).1 (by decide)

/-!
## C6 — the candidate factory
-/

/-- C6.  `NewUserRecommendation` fails with `ErrNoReasonForRecommendation`
iff the reason's evidence set is empty; on success the returned candidate
carries the computed score, `createdAt = now`, `expiresAt = now + 7 days`,
and the freshly drawn id (the explicit `id` parameter standing for
`uuid.New()`). -/
theorem newUserRecommendation_spec (id : RecommendationID) (now : Int)
    (target : UserID) (reason : RecommendationReason) (count : Int) :
    (NewUserRecommendation id now target reason count =
        .error GoErr.noReasonForRecommendation ↔ reason.RelatedUsers = []) ∧
    (reason.RelatedUsers ≠ [] →
      NewUserRecommendation id now target reason count =
        .ok { id := id
              targetUserID := target
              reason := reason
              score := calculateScore reason count
              recentPostCount := count
              createdAt := now
              expiresAt := now + 7 * timeDay }) := by
  have hd : now + (7 : Int) * 24 * timeHour = now + 7 * timeDay := by
    simp [timeDay]
    ring
  constructor
  · unfold NewUserRecommendation
    split
    · simp_all [RecommendationReason.RelatedUsers, List.length_eq_zero]
    · simp_all [RecommendationReason.RelatedUsers, List.length_eq_zero]
  · intro h
    rw [newUserRecommendation_ok id now target reason count h, hd]

/-- Witness for `newUserRecommendation_spec`: empty evidence is rejected,
one-user evidence is accepted. -/
theorem newUserRecommendation_spec_witness :
    (NewUserRecommendation ⟨"r"⟩ 0 ⟨2⟩ (NewFollowedByFollowingReason []) 0 =
        .error GoErr.noReasonForRecommendation) ∧
    (NewUserRecommendation ⟨"r"⟩ 0 ⟨2⟩ (NewFollowedByFollowingReason [⟨3⟩]) 0 =
      .ok { id := ⟨"r"⟩
            targetUserID := ⟨2⟩
            reason := NewFollowedByFollowingReason [⟨3⟩]
            score := calculateScore (NewFollowedByFollowingReason [⟨3⟩]) 0
            recentPostCount := 0
            createdAt := 0
            expiresAt := 0 + 7 * timeDay }) :=
  ⟨(newUserRecommendation_spec ⟨"r"⟩ 0 ⟨2⟩ (NewFollowedByFollowingReason []) 0).1.mpr rfl,
   (newUserRecommendation_spec ⟨"r"⟩ 0 ⟨2⟩ (NewFollowedByFollowingReason [⟨3⟩]) 0).2
     (by decide)⟩

/-!
## C2 — collection invariants
-/

/-- Collections reachable from `NewRecommendationList u` through the
aggregate's mutating methods (`AddRecommendation` keeps the state
returned by the method — unchanged whenever it reports an error). -/
inductive ReachableFrom (u : UserID) : RecommendationList → Prop where
  | new (now : Int) : ReachableFrom u (NewRecommendationList u now)
  | add (l : RecommendationList) (c : UserRecommendation) :
      ReachableFrom u l → ReachableFrom u (l.AddRecommendation c).1
  | removeExpired (l : RecommendationList) (now : Int) :
      ReachableFrom u l → ReachableFrom u (l.RemoveExpired now)
  | filterByMinScore (l : RecommendationList) (minScore : Int) :
      ReachableFrom u l → ReachableFrom u (l.FilterByMinScore minScore)

/-- C2.  Every collection reachable from `NewRecommendationList u`
contains no candidate targeting `u` and no two candidates with the same
target. -/
theorem recommendationList_invariants (u : UserID) (l : RecommendationList)
    (h : ReachableFrom u l) :
    l.forUserID = u ∧
    (∀ r ∈ l.All, r.targetUserID ≠ u) ∧
    l.All.Pairwise (fun a b => a.targetUserID ≠ b.targetUserID) := by
  induction h with
  | new now =>
    exact ⟨rfl, by simp [NewRecommendationList, RecommendationList.All],
      by simp [NewRecommendationList, RecommendationList.All]⟩
  | add l c _ ih =>
    obtain ⟨howner, hself, hdup⟩ := ih
    unfold RecommendationList.AddRecommendation
    split
    · exact ⟨howner, hself, hdup⟩
    · split
      · exact ⟨howner, hself, hdup⟩
      · rename_i hne hnodup
        refine ⟨howner, ?_, ?_⟩
        · intro r hr
          simp only [RecommendationList.All] at hr ⊢
          rcases List.mem_append.mp hr with hmem | hmem
          · exact hself r hmem
          · rw [List.mem_singleton.mp hmem, ← howner]
            intro hc
            exact hne ((UserID.equals_iff _ _).mpr hc)
        · simp only [RecommendationList.All] at hdup ⊢
          rw [List.pairwise_append]
          refine ⟨hdup, List.pairwise_singleton _ _, ?_⟩
          intro r hr c' hc'
          rw [List.mem_singleton.mp hc']
          intro heq
          apply hnodup
          rw [List.any_eq_true]
          exact ⟨r, hr, (UserID.equals_iff _ _).mpr heq⟩
  | removeExpired l now _ ih =>
    obtain ⟨howner, hself, hdup⟩ := ih
    refine ⟨howner, ?_, ?_⟩
    · intro r hr
      exact hself r (List.mem_of_mem_filter hr)
    · exact List.Pairwise.filter _ hdup
  | filterByMinScore l m _ ih =>
    obtain ⟨howner, hself, hdup⟩ := ih
    refine ⟨howner, ?_, ?_⟩
    · intro r hr
      exact hself r (List.mem_of_mem_filter hr)
    · exact List.Pairwise.filter _ hdup

/-- Witness for `recommendationList_invariants` on a small reachable
collection (owner 100 with one admitted candidate and one rejected
self-candidate). -/
theorem recommendationList_invariants_witness :
    ((((listW.AddRecommendation candW).1.AddRecommendation candSelfW).1).forUserID = ⟨100⟩) ∧
    (∀ r ∈ (((listW.AddRecommendation candW).1.AddRecommendation candSelfW).1).All,
      r.targetUserID ≠ ⟨100⟩) ∧
    (((listW.AddRecommendation candW).1.AddRecommendation candSelfW).1).All.Pairwise
      (fun a b => a.targetUserID ≠ b.targetUserID) :=
  recommendationList_invariants ⟨100⟩ _
    (ReachableFrom.add _ candSelfW (ReachableFrom.add _ candW (ReachableFrom.new 0)))

/-!
## C3 — the concrete generator scenario
-/

/-- Users of the spec's concrete scenario. -/
def uA : UserID := ⟨1⟩

/-- B, a hop-1 connection of A. -/
def uB : UserID := ⟨2⟩

/-- C, a hop-1 connection of A. -/
def uC : UserID := ⟨3⟩

/-- E, followed recently by both B and C. -/
def uE : UserID := ⟨5⟩

/-- G, followed recently by C only. -/
def uG : UserID := ⟨7⟩

/-- Scenario social graph: A follows [B, C]; B recently followed [E];
C recently followed [E, G]. -/
def socialC3 : SocialGraphRepository :=
  { GetFollowings := fun u => if u = uA then .ok [uB, uC] else .ok []
    GetRecentFollowings := fun u _ =>
      if u = uB then .ok [uE]
      else if u = uC then .ok [uE, uG]
      else .ok [] }

/-- Scenario activity counts: E has 5 recent posts, G has 0. -/
def contentC3 : ContentRepository :=
  { CountRecentPosts := fun u _ => if u = uE then .ok 5 else .ok 0 }

/-- A deterministic stand-in for `uuid.New()`. -/
def mkIdC3 : UserID → RecommendationID := fun _ => ⟨""⟩

/-- C3.  On the spec's scenario, `generate(A, 7)` yields exactly two
candidates — E with evidence `[B, C]`, weight 20 and score 30, and G with
evidence `[C]`, weight 10 and score 10 — and `GetTopN 1` returns `[E]`. -/
theorem generate_scenario :
    (GenerateFollowingBasedRecommendations socialC3 contentC3 mkIdC3 0 uA 7).map
        (fun lst =>
          (lst.All.map fun r =>
            (r.targetUserID, r.reason.RelatedUsers, r.reason.Weight, r.score),
           (lst.GetTopN 1).map (List.map (fun r => r.targetUserID)))) =
      .ok ([(uE, [uB, uC], 20, 30), (uG, [uC], 10, 10)], some [uE]) := by
  rfl

/-!
## C7 — hop-1 failure and empty hop-1 result
-/

/-- C7.  A failing `GetFollowings` aborts `generate` with the same error;
a successful empty hop-1 list yields the empty collection without
error. -/
theorem generate_hop1_semantics (social : SocialGraphRepository)
    (content : ContentRepository) (mkId : UserID → RecommendationID)
    (now : Int) (u : UserID) (days : Int) :
    (∀ e, social.GetFollowings u = .error e →
      GenerateFollowingBasedRecommendations social content mkId now u days = .error e) ∧
    (social.GetFollowings u = .ok [] →
      GenerateFollowingBasedRecommendations social content mkId now u days =
        .ok (NewRecommendationList u now) ∧ (NewRecommendationList u now).All = []) := by
  constructor
  · intro e he
    unfold GenerateFollowingBasedRecommendations
    rw [he]
  · intro he
    unfold GenerateFollowingBasedRecommendations
    rw [he]
    exact ⟨rfl, rfl⟩

/-- A social graph whose hop-1 fetch fails for user 1. -/
def socialDown : SocialGraphRepository :=
  { GetFollowings := fun _ => .error (.errMsg "social graph unavailable")
    GetRecentFollowings := fun _ _ => .ok [] }

/-- A social graph in which user 1 follows nobody. -/
def socialLonely : SocialGraphRepository :=
  { GetFollowings := fun _ => .ok []
    GetRecentFollowings := fun _ _ => .ok [] }

/-- Witness for `generate_hop1_semantics` at concrete collaborators. -/
theorem generate_hop1_semantics_witness :
    GenerateFollowingBasedRecommendations socialDown contentC3 mkIdC3 0 ⟨1⟩ 7 =
      .error (.errMsg "social graph unavailable") ∧
    GenerateFollowingBasedRecommendations socialLonely contentC3 mkIdC3 0 ⟨1⟩ 7 =
      .ok (NewRecommendationList ⟨1⟩ 0) :=
  ⟨(generate_hop1_semantics socialDown contentC3 mkIdC3 0 ⟨1⟩ 7).1
      (.errMsg "social graph unavailable") rfl,
   ((generate_hop1_semantics socialLonely contentC3 mkIdC3 0 ⟨1⟩ 7).2 rfl).1⟩

/-!
## C8 — partial-failure tolerance
-/

/-- Every follower recorded anywhere in the map satisfies `P`. -/
def EvidenceOk (P : UserID → Prop) (m : FollowMap) : Prop :=
  ∀ kv ∈ m, ∀ v ∈ kv.2, P v

theorem evidenceOk_nil (P : UserID → Prop) : EvidenceOk P [] := by
  intro kv hkv
  exact absurd hkv (List.not_mem_nil kv)

theorem evidenceOk_mapAppend (P : UserID → Prop) (m : FollowMap)
    (k v : UserID) (hm : EvidenceOk P m) (hv : P v) :
    EvidenceOk P (mapAppend m k v) := by
  induction m with
  | nil =>
    intro kv hkv w hw
    simp only [mapAppend, List.mem_singleton] at hkv
    subst hkv
    rw [List.mem_singleton.mp hw]
    exact hv
  | cons hd tl ih =>
    intro kv hkv w hw
    simp only [mapAppend] at hkv
    split at hkv
    · rcases List.mem_cons.mp hkv with h | h
      · subst h
        rcases List.mem_append.mp hw with h | h
        · exact hm hd (List.mem_cons_self hd tl) w h
        · rw [List.mem_singleton.mp h]
          exact hv
      · exact hm kv (List.mem_cons_of_mem hd h) w hw
    · rcases List.mem_cons.mp hkv with h | h
      · subst h
        exact hm hd (List.mem_cons_self hd tl) w hw
      · exact ih (fun kv' hkv' => hm kv' (List.mem_cons_of_mem hd hkv')) kv h w hw

theorem evidenceOk_foldl (P : UserID → Prop) (f : UserID)
    (hf : P f) (us : List UserID) (m : FollowMap) (hm : EvidenceOk P m) :
    EvidenceOk P (us.foldl (fun acc newFollow => mapAppend acc newFollow f) m) := by
  induction us generalizing m with
  | nil => exact hm
  | cons hd tl ih =>
    exact ih (mapAppend m hd f) (evidenceOk_mapAppend P m hd f hm hf)

theorem evidenceOk_accumulate (social : SocialGraphRepository) (days : Int)
    (P : UserID → Prop) (fs : List UserID)
    (hfs : ∀ f ∈ fs, (∃ us, social.GetRecentFollowings f days = .ok us) → P f)
    (m : FollowMap) (hm : EvidenceOk P m) :
    EvidenceOk P (accumulateRecent social days m fs) := by
  induction fs generalizing m with
  | nil => exact hm
  | cons hd tl ih =>
    simp only [accumulateRecent]
    split
    · exact ih (fun f hf => hfs f (List.mem_cons_of_mem hd hf)) m hm
    · rename_i us hus
      exact ih (fun f hf => hfs f (List.mem_cons_of_mem hd hf)) _
        (evidenceOk_foldl P hd (hfs hd (List.mem_cons_self hd tl) ⟨us, hus⟩) us m hm)

/-- `accumulateRecent` only sees the connections whose hop-2 fetch
succeeds: failing connections are skipped, so they may be filtered away
up front without changing the map. -/
theorem accumulate_filter_ok (social : SocialGraphRepository) (days : Int)
    (fs : List UserID) (m : FollowMap) :
    accumulateRecent social days m fs =
      accumulateRecent social days m
        (fs.filter (fun f => ((social.GetRecentFollowings f days).toOption).isSome) ) := by
  induction fs generalizing m with
  | nil => rfl
  | cons hd tl ih =>
    rcases h : social.GetRecentFollowings hd days with e | us
    · have hf : List.filter (fun f => ((social.GetRecentFollowings f days).toOption).isSome) (hd :: tl)
          = List.filter (fun f => ((social.GetRecentFollowings f days).toOption).isSome) tl := by
        simp [List.filter_cons, h, Except.toOption]
      rw [hf]
      simp only [accumulateRecent, h]
      exact ih m
    · have hf : List.filter (fun f => ((social.GetRecentFollowings f days).toOption).isSome) (hd :: tl)
          = hd :: List.filter (fun f => ((social.GetRecentFollowings f days).toOption).isSome) tl := by
        simp [List.filter_cons, h, Except.toOption]
      rw [hf]
      simp only [accumulateRecent, h]
      exact ih _

/-- The candidates admitted by `AddRecommendation` all come from the old
membership or are the offered candidate. -/
theorem addRecommendation_mem (l : RecommendationList) (c r : UserRecommendation)
    (hr : r ∈ (l.AddRecommendation c).1.recommendations) :
    r ∈ l.recommendations ∨ r = c := by
  unfold RecommendationList.AddRecommendation at hr
  split at hr
  · exact Or.inl hr
  · split at hr
    · exact Or.inl hr
    · simp only at hr
      rcases List.mem_append.mp hr with h | h
      · exact Or.inl h
      · exact Or.inr (List.mem_singleton.mp h)

theorem buildRecommendations_evidence (content : ContentRepository)
    (mkId : UserID → RecommendationID) (now days : Int)
    (P : UserID → Prop) (m : FollowMap) (hm : EvidenceOk P m)
    (lst : RecommendationList)
    (hlst : ∀ r ∈ lst.recommendations, ∀ v ∈ r.reason.relatedUsers, P v) :
    ∀ r ∈ (buildRecommendations content mkId now days lst m).recommendations,
      ∀ v ∈ r.reason.relatedUsers, P v := by
  induction m generalizing lst with
  | nil => exact hlst
  | cons hd tl ih =>
    simp only [buildRecommendations]
    split
    · exact ih (fun kv hkv => hm kv (List.mem_cons_of_mem hd hkv)) lst hlst
    · rename_i rec hrec
      refine ih (fun kv hkv => hm kv (List.mem_cons_of_mem hd hkv)) _ ?_
      intro r hr v hv
      rcases addRecommendation_mem lst rec r hr with h | h
      · exact hlst r h v hv
      · subst h
        unfold NewUserRecommendation at hrec
        split at hrec
        · exact absurd hrec (by simp)
        · injection hrec with h2
          rw [← h2] at hv
          exact hm hd (List.mem_cons_self hd tl) v hv

/-- C8.  When the hop-1 fetch succeeds, `generate` never fails, the
accumulated candidate map is exactly the one obtained from the
connections whose hop-2 fetch succeeded (failing connections contribute
nothing), and every piece of evidence on every returned candidate is a
hop-1 connection whose `GetRecentFollowings` call succeeded. -/
theorem generate_partial_failure (social : SocialGraphRepository)
    (content : ContentRepository) (mkId : UserID → RecommendationID)
    (now : Int) (u : UserID) (days : Int) (fs : List UserID)
    (hok : social.GetFollowings u = .ok fs) :
    ∃ lst, GenerateFollowingBasedRecommendations social content mkId now u days = .ok lst ∧
      accumulateRecent social days [] fs =
        accumulateRecent social days []
          (fs.filter (fun f => ((social.GetRecentFollowings f days).toOption).isSome)) ∧
      ∀ r ∈ lst.All, ∀ v ∈ r.reason.RelatedUsers,
        v ∈ fs ∧ ∃ us, social.GetRecentFollowings v days = .ok us := by
  simp only [GenerateFollowingBasedRecommendations, hok]
  split
  · rename_i hfs
    refine ⟨_, rfl, accumulate_filter_ok social days fs [], ?_⟩
    intro r hr
    exact absurd hr (by simp [NewRecommendationList, RecommendationList.All])
  · refine ⟨_, rfl, accumulate_filter_ok social days fs [], ?_⟩
    intro r hr v hv
    refine buildRecommendations_evidence content mkId now days
      (fun w => w ∈ fs ∧ ∃ us, social.GetRecentFollowings w days = .ok us)
      (accumulateRecent social days [] fs)
      (evidenceOk_accumulate social days _ fs (fun f hf h => ⟨hf, h⟩) []
        (evidenceOk_nil _))
      (NewRecommendationList u now)
      (by intro r hr; exact absurd hr (by simp [NewRecommendationList]))
      r hr v hv

/-- A social graph with one failing and one succeeding hop-1 connection:
user 1 follows [2, 3]; the hop-2 fetch fails for 2 and succeeds for 3. -/
def socialMixed : SocialGraphRepository :=
  { GetFollowings := fun u => if u = ⟨1⟩ then .ok [⟨2⟩, ⟨3⟩] else .ok []
    GetRecentFollowings := fun u _ =>
      if u = ⟨2⟩ then .error (.errMsg "timeout")
      else if u = ⟨3⟩ then .ok [⟨5⟩] else .ok [] }

/-- Witness for `generate_partial_failure` on `socialMixed`. -/
theorem generate_partial_failure_witness :
    ∃ lst, GenerateFollowingBasedRecommendations socialMixed contentC3 mkIdC3 0 ⟨1⟩ 7 =
        .ok lst ∧
      accumulateRecent socialMixed 7 [] [⟨2⟩, ⟨3⟩] =
        accumulateRecent socialMixed 7 []
          (([⟨2⟩, ⟨3⟩] : List UserID).filter
            (fun f => ((socialMixed.GetRecentFollowings f 7).toOption).isSome)) ∧
      ∀ r ∈ lst.All, ∀ v ∈ r.reason.RelatedUsers,
        v ∈ ([⟨2⟩, ⟨3⟩] : List UserID) ∧
          ∃ us, socialMixed.GetRecentFollowings v 7 = .ok us :=
  generate_partial_failure socialMixed contentC3 mkIdC3 0 ⟨1⟩ 7 [⟨2⟩, ⟨3⟩] rfl

/-!
## C1 — `GetTopN`

Reference characterization of the small-range path of the sort: Go's
`insertionSort_func` scans `i` left to right and bubbles the element at
`i` leftwards past strictly "greater" elements, which is exactly
insertion into the sorted prefix from the right.  `insR` is that
insertion: `x` lands in front of the longest suffix whose elements all
satisfy `lt x ·`.
-/

/-- Insert `x` into `p` from the right: `x` goes in front of the longest
all-`lt x ·` suffix. -/
def insR {α : Type} (lt : α → α → Bool) (x : α) : List α → List α
  | [] => [x]
  | u :: p => if (u :: p).all (fun v => lt x v) then x :: u :: p else u :: insR lt x p

/-- Left fold of `insR`: inserts the elements of the second list into the
first, one at a time. -/
def insAll {α : Type} (lt : α → α → Bool) : List α → List α → List α
  | p, [] => p
  | p, x :: r => insAll lt (insR lt x p) r

/-- The functional (stable) rendering of Go's `insertionSort_func` on a
whole list. -/
def insSortL {α : Type} (lt : α → α → Bool) (l : List α) : List α :=
  insAll lt [] l

theorem insR_length {α : Type} (lt : α → α → Bool) (x : α) (p : List α) :
    (insR lt x p).length = p.length + 1 := by
  induction p with
  | nil => rfl
  | cons u p ih =>
    simp only [insR]
    split
    · rfl
    · simp only [List.length_cons, ih]

theorem insR_perm {α : Type} (lt : α → α → Bool) (x : α) (p : List α) :
    (insR lt x p).Perm (x :: p) := by
  induction p with
  | nil => exact List.Perm.refl _
  | cons u p ih =>
    simp only [insR]
    split
    · exact List.Perm.refl _
    · exact (ih.cons u).trans (List.Perm.swap x u p)

theorem insAll_perm {α : Type} (lt : α → α → Bool) (p r : List α) :
    (insAll lt p r).Perm (p ++ r) := by
  induction r generalizing p with
  | nil => simp [insAll]
  | cons x r ih =>
    refine (ih (insR lt x p)).trans ?_
    refine ((insR_perm lt x p).append_right r).trans ?_
    exact List.perm_middle.symm

theorem insSortL_perm {α : Type} (lt : α → α → Bool) (l : List α) :
    (insSortL lt l).Perm l :=
  (insAll_perm lt [] l).trans (by simp)

theorem lget_cons_succ {α : Type} [Inhabited α] (a : α) (l : List α) (k : Nat) :
    lget (a :: l) (k + 1) = lget l k := rfl

theorem lget_append {α : Type} [Inhabited α] (p t : List α) (i : Nat) :
    lget (p ++ t) (p.length + i) = lget t i := by
  induction p with
  | nil =>
    simp only [List.nil_append, List.length_nil, Nat.zero_add]
  | cons a p ih =>
    have hl : (a :: p).length + i = (p.length + i) + 1 := by
      simp only [List.length_cons]
      omega
    rw [hl]
    show lget (a :: (p ++ t)) ((p.length + i) + 1) = lget t i
    rw [lget_cons_succ]
    exact ih

theorem lget_at_len {α : Type} [Inhabited α] (p : List α) (x : α) (s : List α) :
    lget (p ++ x :: s) p.length = x :=
  lget_append p (x :: s) 0

theorem lget_at_len_succ {α : Type} [Inhabited α] (p : List α) (u x : α) (s : List α) :
    lget (p ++ u :: x :: s) (p.length + 1) = x :=
  lget_append p (u :: x :: s) 1

theorem lswap_adj {α : Type} [Inhabited α] (q : List α) (u x : α) (s : List α) :
    lswap (q ++ u :: x :: s) (q.length + 1) q.length = q ++ x :: u :: s := by
  induction q with
  | nil => simp [lswap, lget]
  | cons a q ih =>
    show ((a :: (q ++ u :: x :: s)).set (q.length + 2) (lget (a :: (q ++ u :: x :: s)) (q.length + 1))).set
        (q.length + 1) (lget (a :: (q ++ u :: x :: s)) (q.length + 2)) = a :: (q ++ x :: u :: s)
    have h1 : lget (a :: (q ++ u :: x :: s)) (q.length + 1) = lget (q ++ u :: x :: s) q.length := rfl
    have h2 : lget (a :: (q ++ u :: x :: s)) (q.length + 2) = lget (q ++ u :: x :: s) (q.length + 1) := rfl
    rw [h1, h2]
    show a :: ((q ++ u :: x :: s).set (q.length + 1) (lget (q ++ u :: x :: s) q.length)).set
        q.length (lget (q ++ u :: x :: s) (q.length + 1)) = a :: (q ++ x :: u :: s)
    exact congrArg (a :: ·) ih

theorem insR_concat {α : Type} (lt : α → α → Bool) (x u : α) (q : List α) :
    insR lt x (q ++ [u]) =
      if lt x u = true then insR lt x q ++ [u] else q ++ [u, x] := by
  induction q with
  | nil =>
    by_cases hu : lt x u = true <;> simp [insR, hu]
  | cons a q ih =>
    by_cases hu : lt x u = true <;> by_cases ha : lt x a = true <;>
      by_cases hq : (q.all fun v => lt x v) = true <;>
      simp [insR, List.all_append, ih, hu, ha, hq]

theorem bubble_spec {α : Type} [Inhabited α] (lt : α → α → Bool) (p : List α) :
    ∀ (x : α) (s : List α),
      bubbleA lt 0 (p ++ x :: s) p.length = insR lt x p ++ s := by
  induction p using List.reverseRecOn with
  | nil =>
    intro x s
    rfl
  | append_singleton q u ih =>
    intro x s
    have hlen : (q ++ [u]).length = q.length + 1 := by simp
    have hassoc : (q ++ [u]) ++ x :: s = q ++ u :: x :: s := by simp
    rw [hlen, hassoc]
    simp only [bubbleA, lget_at_len_succ q u x s, lget_at_len q u (x :: s)]
    by_cases hlt : lt x u = true
    · rw [if_pos ⟨Nat.zero_le _, hlt⟩, lswap_adj q u x s, ih x (u :: s),
        insR_concat lt x u q, if_pos hlt]
      simp
    · rw [if_neg (by simp [hlt]), insR_concat lt x u q, if_neg hlt]
      simp

theorem insLoop_spec {α : Type} [Inhabited α] (lt : α → α → Bool) (r : List α) :
    ∀ p : List α, insLoopF lt 0 (p ++ r) p.length r.length = insAll lt p r := by
  induction r with
  | nil =>
    intro p
    simp [insLoopF, insAll]
  | cons x r ih =>
    intro p
    show insLoopF lt 0 (bubbleA lt 0 (p ++ x :: r) p.length) (p.length + 1) r.length =
      insAll lt p (x :: r)
    rw [bubble_spec lt p x r, ← insR_length lt x p, ih (insR lt x p)]
    rfl

theorem insertionSortF_eq_insSortL {α : Type} [Inhabited α] (lt : α → α → Bool)
    (l : List α) : insertionSortF lt l 0 l.length = insSortL lt l := by
  cases l with
  | nil => rfl
  | cons x r =>
    show insLoopF lt 0 ([x] ++ r) ([x] : List α).length r.length = insSortL lt (x :: r)
    rw [insLoop_spec lt r [x]]
    rfl

theorem pdqsortF_small {α : Type} [Inhabited α] (lt : α → α → Bool)
    (l : List α) (a b limit : Nat) (wB wP : Bool) (fuel : Nat) (h : b - a ≤ 12) :
    pdqsortF lt l a b limit wB wP (fuel + 1) = insertionSortF lt l a b := by
  rw [pdqsortF]
  rw [if_pos h]

theorem sortSliceF_small {α : Type} [Inhabited α] (lt : α → α → Bool)
    (l : List α) (h : l.length ≤ 12) : sortSliceF lt l = insSortL lt l := by
  show pdqsortF lt l 0 l.length (bitsLenF l.length) true true (l.length + 1) = _
  rw [pdqsortF_small lt l 0 l.length _ true true l.length (by simpa using h)]
  exact insertionSortF_eq_insSortL lt l

theorem scoreGt_iff (x v : UserRecommendation) :
    scoreGt x v = true ↔ v.score < x.score := by
  simp [scoreGt]

theorem mem_insR {α : Type} (lt : α → α → Bool) (x v : α) (p : List α) :
    v ∈ insR lt x p ↔ v = x ∨ v ∈ p := by
  rw [(insR_perm lt x p).mem_iff, List.mem_cons]

theorem sorted_insR (x : UserRecommendation) (p : List UserRecommendation)
    (hp : p.Pairwise (fun a b => b.score ≤ a.score)) :
    (insR scoreGt x p).Pairwise (fun a b => b.score ≤ a.score) := by
  induction p with
  | nil => simp [insR]
  | cons u p ih =>
    rw [List.pairwise_cons] at hp
    obtain ⟨hu, hp'⟩ := hp
    simp only [insR]
    split
    · rename_i hall
      rw [List.pairwise_cons]
      refine ⟨?_, List.pairwise_cons.mpr ⟨hu, hp'⟩⟩
      intro v hv
      exact le_of_lt ((scoreGt_iff x v).mp (List.all_eq_true.mp hall v hv))
    · rename_i hall
      rw [List.pairwise_cons]
      refine ⟨?_, ih hp'⟩
      intro v hv
      rcases (mem_insR scoreGt x v p).mp hv with rfl | hvp
      · by_cases hgu : scoreGt v u = true
        · rw [List.all_cons, hgu, Bool.true_and] at hall
          rw [List.all_eq_true] at hall
          push_neg at hall
          obtain ⟨w, hw, hws⟩ := hall
          have h1 : v.score ≤ w.score :=
            le_of_not_lt (fun hlt => hws ((scoreGt_iff v w).mpr hlt))
          exact le_trans h1 (hu w hw)
        · exact le_of_not_lt (fun hlt => hgu ((scoreGt_iff v u).mpr hlt))
      · exact hu v hvp

theorem sorted_insAll (p r : List UserRecommendation)
    (hp : p.Pairwise (fun a b => b.score ≤ a.score)) :
    (insAll scoreGt p r).Pairwise (fun a b => b.score ≤ a.score) := by
  induction r generalizing p with
  | nil => exact hp
  | cons x r ih => exact ih (insR scoreGt x p) (sorted_insR x p hp)

theorem sorted_insSortL (l : List UserRecommendation) :
    (insSortL scoreGt l).Pairwise (fun a b => b.score ≤ a.score) :=
  sorted_insAll [] l List.Pairwise.nil

theorem filter_insR (x : UserRecommendation) (p : List UserRecommendation) (s : Int) :
    (insR scoreGt x p).filter (fun z => decide (z.score = s)) =
      if x.score = s then
        (p.filter (fun z => decide (z.score = s))) ++ [x]
      else p.filter (fun z => decide (z.score = s)) := by
  induction p with
  | nil =>
    by_cases hs : x.score = s <;> simp [insR, hs]
  | cons u p ih =>
    simp only [insR]
    split
    · rename_i hall
      by_cases hs : x.score = s
      · have hnil : (u :: p).filter (fun z => decide (z.score = s)) = [] := by
          rw [List.filter_eq_nil_iff]
          intro v hv
          have hvx := (scoreGt_iff x v).mp (List.all_eq_true.mp hall v hv)
          simp only [decide_eq_true_eq]
          omega
        rw [List.filter_cons, hnil]
        simp [hs]
      · rw [List.filter_cons]
        simp [hs]
    · rename_i hall
      rw [List.filter_cons, List.filter_cons, ih]
      by_cases hs : x.score = s <;> by_cases hus : u.score = s <;> simp [hs, hus]

theorem filter_insAll (p r : List UserRecommendation) (s : Int) :
    (insAll scoreGt p r).filter (fun z => decide (z.score = s)) =
      p.filter (fun z => decide (z.score = s)) ++
        r.filter (fun z => decide (z.score = s)) := by
  induction r generalizing p with
  | nil => simp [insAll]
  | cons x r ih =>
    show (insAll scoreGt (insR scoreGt x p) r).filter _ = _
    rw [ih, filter_insR, List.filter_cons]
    by_cases hs : x.score = s <;> simp [hs]

theorem filter_insSortL (l : List UserRecommendation) (s : Int) :
    (insSortL scoreGt l).filter (fun z => decide (z.score = s)) =
      l.filter (fun z => decide (z.score = s)) := by
  have h := filter_insAll [] l s
  simpa using h

/-- C1, amended.  For collections of at most 12 candidates (the range on
which `sort.Slice`'s pdqsort is a pure insertion sort) and any `n ≥ 0`,
`GetTopN n` returns the first `n` elements of the stable descending sort
of the membership: the result has length `min n (Count())`, is sorted by
score descending, and candidates of equal score keep their insertion
order (the full sorted list is a permutation of the membership whose
equal-score fibers are untouched).  `GetTopN` is a pure query in this
embedding — the collection value is left unchanged by construction,
mirroring the Go method, which sorts a copy of its slice. -/
theorem getTopN_small_spec (l : RecommendationList) (n : Int)
    (hn : 0 ≤ n) (hsz : l.recommendations.length ≤ 12) :
    l.GetTopN n = some ((insSortL scoreGt l.recommendations).take n.toNat) ∧
    (((insSortL scoreGt l.recommendations).take n.toNat).length : Int) = min n l.Count ∧
    ((insSortL scoreGt l.recommendations).take n.toNat).Pairwise
      (fun a b => b.score ≤ a.score) ∧
    (insSortL scoreGt l.recommendations).Perm l.recommendations ∧
    (∀ s : Int,
      (insSortL scoreGt l.recommendations).filter (fun z => decide (z.score = s)) =
        l.recommendations.filter (fun z => decide (z.score = s))) := by
  have hperm := insSortL_perm scoreGt l.recommendations
  have hlen := hperm.length_eq
  refine ⟨?_, ?_, ?_, hperm, fun s => filter_insSortL l.recommendations s⟩
  · simp only [RecommendationList.GetTopN, sortSliceF_small scoreGt _ hsz]
    by_cases hgt : (((insSortL scoreGt l.recommendations).length : Int) > n)
    · rw [if_pos hgt, if_neg (not_lt.mpr hn)]
    · rw [if_neg hgt]
      have htk : (insSortL scoreGt l.recommendations).take n.toNat =
          insSortL scoreGt l.recommendations := by
        apply List.take_of_length_le
        omega
      rw [htk]
  · rw [List.length_take, RecommendationList.Count]
    omega
  · exact (sorted_insSortL l.recommendations).sublist (List.take_sublist _ _)

theorem reachableFrom_foldl (u : UserID) (l : RecommendationList)
    (h : ReachableFrom u l) (recs : List UserRecommendation) :
    ReachableFrom u (recs.foldl (fun acc r => (acc.AddRecommendation r).1) l) := by
  induction recs generalizing l with
  | nil => exact h
  | cons c recs ih => exact ih _ (ReachableFrom.add l c h)

/-- Targets and post counts of the 13 candidates of the stability
counterexample; their scores are `10 + 2·count` (`10` for count `0`):
`[26, 10, 10, 32, 20, 16, 22, 24, 30, 18, 12, 28, 14]`.  Targets 2 and 3
tie at score 10, inserted in that order. -/
def cePairs : List (Int × Int) :=
  [(1, 8), (2, 0), (3, 0), (4, 11), (5, 5), (6, 3), (7, 6), (8, 7), (9, 10),
   (10, 4), (11, 1), (12, 9), (13, 2)]

/-- A candidate for target `t` with `c` recent posts and a one-user
evidence set (the field values are exactly those produced by
`NewUserRecommendation ⟨""⟩ 0 ⟨t⟩ (NewFollowedByFollowingReason [⟨50⟩]) c`). -/
def ceRec (t c : Int) : UserRecommendation :=
  { id := ⟨""⟩
    targetUserID := ⟨t⟩
    reason := NewFollowedByFollowingReason [⟨50⟩]
    score := calculateScore (NewFollowedByFollowingReason [⟨50⟩]) c
    recentPostCount := c
    createdAt := 0
    expiresAt := 0 + 7 * 24 * timeHour }

/-- The 13-candidate collection of the stability counterexample, built
through the aggregate's own admission path. -/
def ceList : RecommendationList :=
  (cePairs.map (fun tc => ceRec tc.1 tc.2)).foldl
    (fun acc r => (acc.AddRecommendation r).1) (NewRecommendationList ⟨100⟩ 0)

/-- C1, counterexample.  `ceList` is reachable through
`NewRecommendationList`/`AddRecommendation`, holds 13 candidates, and its
candidates for targets 2 and 3 tie at score 10, target 2 having been
inserted first.  `GetTopN 13` (so `n ≥ 0`) returns the tied pair in the
order 3 before 2 — `sort.Slice` leaves the 12-element insertion-sort
regime at 13 elements and its pdqsort partitioning reorders equal-score
candidates, so the returned list is sorted by score but *not* stable,
refuting the claim's tie-breaking clause at this collection. -/
theorem getTopN_stability_counterexample :
    ReachableFrom ⟨100⟩ ceList ∧
    ceList.Count = 13 ∧
    (ceRec 2 0).score = (ceRec 3 0).score ∧
    ceList.All.map (fun r => (r.targetUserID.value, r.score)) =
      [(1, 26), (2, 10), (3, 10), (4, 32), (5, 20), (6, 16), (7, 22), (8, 24),
       (9, 30), (10, 18), (11, 12), (12, 28), (13, 14)] ∧
    (ceList.GetTopN 13).map (List.map (fun r => (r.targetUserID.value, r.score))) =
      some [(4, 32), (9, 30), (12, 28), (1, 26), (8, 24), (7, 22), (5, 20),
            (10, 18), (6, 16), (13, 14), (11, 12), (3, 10), (2, 10)] :=
  ⟨reachableFrom_foldl ⟨100⟩ _ (ReachableFrom.new 0) _, rfl, rfl, rfl, rfl⟩

/-- Witness for `getTopN_small_spec` on a one-candidate collection with
`n = 2`. -/
theorem getTopN_small_spec_witness :
    (listW.AddRecommendation candW).1.GetTopN 2 =
      some ((insSortL scoreGt (listW.AddRecommendation candW).1.recommendations).take
        (2 : Int).toNat) ∧
    (((insSortL scoreGt (listW.AddRecommendation candW).1.recommendations).take
        (2 : Int).toNat).length : Int) =
      min 2 (listW.AddRecommendation candW).1.Count ∧
    ((insSortL scoreGt (listW.AddRecommendation candW).1.recommendations).take
        (2 : Int).toNat).Pairwise (fun a b => b.score ≤ a.score) ∧
    (insSortL scoreGt (listW.AddRecommendation candW).1.recommendations).Perm
      (listW.AddRecommendation candW).1.recommendations ∧
    (∀ s : Int,
      (insSortL scoreGt (listW.AddRecommendation candW).1.recommendations).filter
          (fun z => decide (z.score = s)) =
        (listW.AddRecommendation candW).1.recommendations.filter
          (fun z => decide (z.score = s))) :=
  getTopN_small_spec (listW.AddRecommendation candW).1 2 (by decide) (by decide)
